import Mathlib

/-!
Verification of the jsdoc template helper core (src/lib/jsdoc/util/templateHelper.js),
the logger (src/lib/jsdoc/util/logger.js), and the tag-dictionary behaviour exercised
by the test specs, via a shallow embedding in Lean.

Doclets are modelled as records over the fields the helper reads and writes.  A JS
field that may be `undefined` is modelled as an `Option`; an array-valued field that
defaults to an empty array is modelled as a `List`.  TaffyDB collections are modelled
as `List Doclet` in insertion order; `find(data, spec)` is `List.filter` /
`List.find?` with the template translated to a boolean predicate, and in-place
mutation of a found record is an update of the corresponding list entry.
-/

/-- The canonical symbol record (the fields of a jsdoc doclet that the embedded
operations read or write).  `listeners = none` models a doclet on which the
`listeners` property has never been created; `some ls` models an existing array
(possibly empty, which is truthy in JS). -/
structure Doclet where
  longname : String
  name : String := ""
  kind : String := ""
  memberof : Option String := none
  scope : Option String := none
  access : Option String := none
  undocumented : Bool := false
  ignore : Bool := false
  listens : List String := []
  listeners : Option (List String) := none
  author : List String := []
deriving Repr, DecidableEq

/-- Embeds `find(data, \x7blongname: eventLongname, kind: 'event'\x7d)[0]` from
`addEventListeners` (templateHelper.js line 1193): the first doclet whose
`longname` and `kind` match. -/
def findEventIn (data : List Doclet) (eventLongname : String) : Option Doclet :=
  data.find? (fun d => d.longname == eventLongname && d.kind == "event")

/-- Embeds the body of the inner loop of `addEventListeners` (templateHelper.js
lines 1193-1200): locate the first event doclet with the given longname and, on
that doclet, create `listeners` as a one-element array if it is absent, otherwise
push onto the existing array.  When no doclet matches, the collection is returned
unchanged, mirroring the `if (doc)` guard.  The `_events` cache of the source is
semantically transparent here: mutation never changes any doclet's `longname` or
`kind`, so the cached object is always the same record that a fresh lookup would
produce. -/
def pushListener (eventLongname listenerLongname : String) : List Doclet → List Doclet
  | [] => []
  | d :: rest =>
    if d.longname == eventLongname && d.kind == "event" then
      (match d.listeners with
        | none => { d with listeners := some [listenerLongname] }
        | some ls => { d with listeners := some (ls ++ [listenerLongname]) }) :: rest
    else
      d :: pushListener eventLongname listenerLongname rest

/-- The (event longname, listener longname) references processed by
`addEventListeners`, in processing order: listeners are the doclets with a
non-empty `listens` array (the `find(data, function () ...)` snapshot, line 1180),
and each listener contributes one pair per entry of its `listens` array. -/
def listenPairs (data : List Doclet) : List (String × String) :=
  (data.filter (fun d => !d.listens.isEmpty)).flatMap
    (fun listener => listener.listens.map (fun evName => (evName, listener.longname)))

/-- Left fold of `pushListener` over a list of (event, listener) references. -/
def applyListenPairs (data : List Doclet) (ps : List (String × String)) : List Doclet :=
  ps.foldl (fun acc p => pushListener p.1 p.2 acc) data

/-- Embeds `exports.addEventListeners` (templateHelper.js lines 1177-1204): the
nested forEach loops over the snapshot of listeners and their `listens` arrays.
The early `if (!listeners.length) return` is the identity fold over an empty
list. -/
def addEventListeners (data : List Doclet) : List Doclet :=
  let listeners := data.filter (fun d => !d.listens.isEmpty)
  listeners.foldl
    (fun acc listener =>
      listener.listens.foldl (fun acc2 evName => pushListener evName listener.longname acc2) acc)
    data

/-- Embeds the `while (doc)` loop of `exports.getAncestors` (templateHelper.js
lines 1130-1143) with an explicit step bound: each iteration replaces `doc` by
`find(data, \x7blongname: doc.memberof\x7d)[0]` and, when that lookup succeeds,
unshifts the result onto the ancestor list.  `none` as a result means the loop
was still running after `fuel` iterations; `some ancestors` means the loop
exited (the lookup failed) and returned `ancestors`.  A doclet whose `memberof`
is `undefined` matches nothing, since every doclet in the collection carries a
string `longname`. -/
def getAncestorsFuel (data : List Doclet) : Nat → Doclet → List Doclet → Option (List Doclet)
  | 0, _, _ => none
  | fuel + 1, doc, ancestors =>
    match doc.memberof.bind (fun m => data.find? (fun d => d.longname == m)) with
    | none => some ancestors
    | some parent => getAncestorsFuel data fuel parent (parent :: ancestors)

/-- Embeds `isModuleExports` (templateHelper.js lines 300-303): the doclet's
longname is truthy (non-empty), equals its name, starts with the `module:`
namespace, and the kind is not `module`. -/
def isModuleExports (d : Doclet) : Bool :=
  !(d.longname == "") && d.longname == d.name &&
    "module:".data.isPrefixOf d.longname.data && !(d.kind == "module")

/-- Embeds `doclet.name.replace(/(^"|"$)/g, '')` from `getMembers`
(templateHelper.js line 973): strip one leading and one trailing double quote. -/
def stripEnclosingQuotes (s : String) : String :=
  let s1 := if s.data.head? == some (Char.ofNat 34) then String.mk (s.data.drop 1) else s
  if s1.data.getLast? == some (Char.ofNat 34) then String.mk (s1.data.dropLast) else s1

/-- The record returned by `getMembers` (templateHelper.js lines 953-983). -/
structure DocMembers where
  classes : List Doclet
  externals : List Doclet
  events : List Doclet
  globals : List Doclet
  mixins : List Doclet
  modules : List Doclet
  namespaces : List Doclet
  interfaces : List Doclet
deriving Repr, DecidableEq

/-- Embeds `exports.getMembers` (templateHelper.js lines 953-983): kind-based
TaffyDB queries, the quote-stripping map over externals, and the final filter
removing module exports from the globals (the globals query matches the kinds
member/function/constant/typedef with `memberof` undefined). -/
def getMembers (data : List Doclet) : DocMembers :=
  let globalsBase := data.filter (fun d =>
    (d.kind == "member" || d.kind == "function" || d.kind == "constant" || d.kind == "typedef")
      && d.memberof == none)
  { classes := data.filter (fun d => d.kind == "class")
    externals := (data.filter (fun d => d.kind == "external")).map
      (fun d => { d with name := stripEnclosingQuotes d.name })
    events := data.filter (fun d => d.kind == "event")
    globals := globalsBase.filter (fun d => !isModuleExports d)
    mixins := data.filter (fun d => d.kind == "mixin")
    modules := data.filter (fun d => d.kind == "module")
    namespaces := data.filter (fun d => d.kind == "namespace")
    interfaces := data.filter (fun d => d.kind == "interface") }

/-- The `env.opts` fields read by `prune` (templateHelper.js lines 1217-1238):
`access` is the `--access` option (`none` = undefined) and `privateFlag` is
`env.opts.private`. -/
structure PruneOpts where
  access : Option (List String) := none
  privateFlag : Bool := false
deriving Repr, DecidableEq

/-- Embeds the access-option block of `exports.prune` (templateHelper.js lines
1222-1235), applied to the collection remaining after the first three removal
queries: when the `--access` option does not include `all`, the accesses the
option omits are removed (private also being kept when `env.opts.private` is
set). -/
def pruneAccess (opts : PruneOpts) (d3 : List Doclet) : List Doclet :=
  if opts.access.isNone || !((opts.access.getD []).contains "all") then
    let d4 := if opts.access.isSome && !((opts.access.getD []).contains "public") then
        d3.filter (fun d => !(d.access == some "public")) else d3
    let d5 := if opts.access.isSome && !((opts.access.getD []).contains "protected") then
        d4.filter (fun d => !(d.access == some "protected")) else d4
    let d6 := if !opts.privateFlag && (opts.access.isNone || !((opts.access.getD []).contains "private")) then
        d5.filter (fun d => !(d.access == some "private")) else d5
    if opts.access.isSome && !((opts.access.getD []).contains "undefined") then
      d6.filter (fun d => d.access.isSome)
    else d6
  else d3

/-- Embeds `exports.prune` (templateHelper.js lines 1217-1238): removal queries
become filters keeping the records that do not match, in source order. -/
def prune (opts : PruneOpts) (data : List Doclet) : List Doclet :=
  pruneAccess opts
    (((data.filter (fun d => !d.undocumented)).filter (fun d => !d.ignore)).filter
      (fun d => !(d.memberof == some "<anonymous>")))

/-- Per-character lowercasing, the model of JS `String.prototype.toLowerCase` as
used on ASCII filenames by `makeUniqueFilename` and `makeUniqueId`. -/
def lowerStr (s : String) : String := String.mk (s.data.map Char.toLower)

/-- Lookup in a JS object used as a string map (`hasOwnProp.call(m, k)` plus
read): the first binding for the key, if any. -/
def lookupAssoc (m : List (String × String)) (k : String) : Option String :=
  (m.find? (fun kv => kv.1 == k)).map (fun kv => kv.2)

/-- Embeds `hasOwnProp.call(files, key)` for the module-level `files` cache of
templateHelper.js. -/
def hasFileKey (files : List (String × String)) (k : String) : Bool :=
  files.any (fun kv => kv.1 == k)

/-- Embeds the `while (nonUnique)` loop of `makeUniqueFilename`
(templateHelper.js lines 224-231): append underscores until the lowercased
filename is not yet a key of the `files` cache.  Terminates because each
appended underscore strictly shrinks the set of cache keys that the candidate
key is a prefix of. -/
def extendFilename (files : List (String × String)) (filename : String) : String :=
  if h : hasFileKey files (lowerStr filename) then
    extendFilename files (filename ++ "_")
  else filename
termination_by (files.filter (fun kv => (lowerStr filename).data.isPrefixOf kv.1.data)).length
decreasing_by
  have hdata : (lowerStr (filename ++ "_")).data = (lowerStr filename).data ++ ['_'] := by
    show ((filename ++ "_").data).map Char.toLower = (filename.data.map Char.toLower) ++ ['_']
    have hjoin : (filename ++ "_").data = filename.data ++ ['_'] := rfl
    rw [hjoin, List.map_append]
    congr 1
  obtain ⟨kv, hkvmem, hkveq⟩ : ∃ kv, kv ∈ files ∧ kv.1 = lowerStr filename := by
    simpa [hasFileKey, List.any_eq_true] using h
  have hmono : ∀ kv : String × String,
      (lowerStr (filename ++ "_")).data.isPrefixOf kv.1.data →
      (lowerStr filename).data.isPrefixOf kv.1.data := by
    intro kv hkv
    rw [List.isPrefixOf_iff_prefix] at hkv ⊢
    rw [hdata] at hkv
    exact (List.prefix_append _ _).trans hkv
  have hsub := List.monotone_filter_right files hmono
  have hqkv : ((lowerStr filename).data.isPrefixOf kv.1.data) = true := by
    rw [List.isPrefixOf_iff_prefix, hkveq]
  have hpkv : ¬ ((lowerStr (filename ++ "_")).data.isPrefixOf kv.1.data = true) := by
    rw [List.isPrefixOf_iff_prefix, hdata, hkveq]
    intro hc
    have hlen := hc.length_le
    simp at hlen
  have hmem : kv ∈ files.filter (fun kv => (lowerStr filename).data.isPrefixOf kv.1.data) :=
    List.mem_filter.2 ⟨hkvmem, hqkv⟩
  refine Nat.lt_of_le_of_ne hsub.length_le (fun heq => hpkv ?_)
  have heqlist := hsub.eq_of_length heq
  have hmem2 : kv ∈ files.filter
      (fun kv => (lowerStr (filename ++ "_")).data.isPrefixOf kv.1.data) := by
    rw [heqlist]; exact hmem
  exact (List.mem_filter.1 hmem2).2

/-- Embeds the dash-prepending guard of `makeUniqueFilename` (templateHelper.js
lines 218-221): filenames may not be empty or begin with an underscore. -/
def mufAdjusted (filename : String) : String :=
  if filename.length == 0 || filename.data.head? == some '_' then "-" ++ filename
  else filename

/-- Embeds `makeUniqueFilename` (templateHelper.js lines 213-235): prepend a
dash when the name is empty or starts with an underscore, extend with
underscores until the lowercased key is unused, then record the key in the
`files` cache and return the filename. -/
def makeUniqueFilename (files : List (String × String)) (filename str : String) :
    String × List (String × String) :=
  let result := extendFilename files (mufAdjusted filename)
  (result, (lowerStr result, str) :: files)

/-- Composition of the per-character replacements of `getUniqueFilename`
(templateHelper.js lines 252-260): problem characters and `~` become `-`, `#`
becomes `_` (the later `/`-to-`_` replacement never fires because `/` was
already turned into `-`). -/
def sanitizeChar (c : Char) : Char :=
  if c == Char.ofNat 92 || c == '/' || c == '?' || c == '*' || c == ':' || c == '|' ||
      c == Char.ofNat 39 || c == Char.ofNat 34 || c == '<' || c == '>' then '-'
  else if c == '~' then '-'
  else if c == '#' then '_'
  else c

/-- Embeds `.replace(/\([\s\S]*\)$/, '')` (templateHelper.js line 262): when the
string ends with a closing parenthesis and contains an opening one, the leftmost
match removes everything from the first opening parenthesis on. -/
def stripVariation (s : String) : String :=
  if s.data.getLast? == some ')' && s.data.contains '(' then
    String.mk (s.data.takeWhile (fun c => !(c == '(')))
  else s

/-- Embeds `.replace(/^[\.\-]/, '')` (templateHelper.js line 264): drop one
leading dot or dash. -/
def stripLeadingDotDash (s : String) : String :=
  match s.data with
  | c :: rest => if c == '.' || c == '-' then String.mk rest else s
  | [] => s

/-- Embeds `.replace(new RegExp('^(' + namespaces + '):'), '$1-')`
(templateHelper.js line 252): the first namespace (in dictionary order) whose
`ns:` form starts the string has its colon turned into a dash.  The namespace
list comes from `dictionary.getNamespaces()`; it is passed as a parameter here
because the tag-dictionary module is a collaborator of this file. -/
def nsReplace (namespaces : List String) (s : String) : String :=
  match namespaces.find? (fun ns => (ns ++ ":").data.isPrefixOf s.data) with
  | some ns => ns ++ "-" ++ String.mk (s.data.drop (ns.length + 1))
  | none => s

/-- The basename pipeline of `exports.getUniqueFilename` (templateHelper.js
lines 249-267): namespace-prefix replacement, character sanitizing, variation
stripping, leading dot/dash stripping, and the `_` fallback for an emptied
basename. -/
def docletBasename (namespaces : List String) (str : String) : String :=
  let b0 := nsReplace namespaces str
  let b1 := String.mk (b0.data.map sanitizeChar)
  let b2 := stripLeadingDotDash (stripVariation b1)
  if b2.length == 0 then "_" else b2

/-- Embeds `exports.getUniqueFilename` (templateHelper.js lines 248-270):
sanitize the string into a basename (falling back to `_` when everything was
stripped), make it unique against the `files` cache, and append the `.html`
extension. -/
def getUniqueFilename (namespaces : List String) (files : List (String × String))
    (str : String) : String × List (String × String) :=
  let mk := makeUniqueFilename files (docletBasename namespaces str) str
  (mk.1 ++ ".html", mk.2)

/-- The module-level registries of templateHelper.js: the `files` cache of
`makeUniqueFilename` and the two-way `linkMap`. -/
structure LinkState where
  files : List (String × String) := []
  longnameToUrl : List (String × String) := []
  urlToLongname : List (String × String) := []
deriving Repr, DecidableEq

/-- Embeds `registerLink` (templateHelper.js lines 54-57). -/
def registerLink (s : LinkState) (longname fileUrl : String) : LinkState :=
  { s with longnameToUrl := s.longnameToUrl ++ [(longname, fileUrl)],
           urlToLongname := s.urlToLongname ++ [(fileUrl, longname)] }

/-- Embeds `getFilename` (templateHelper.js lines 277-289): return the
registered URL when the longname is known, otherwise generate a unique filename
and register it. -/
def getFilename (namespaces : List String) (s : LinkState) (longname : String) :
    String × LinkState :=
  match lookupAssoc s.longnameToUrl longname with
  | some fileUrl => (fileUrl, s)
  | none =>
    let gen := getUniqueFilename namespaces s.files longname
    (gen.1, registerLink { s with files := gen.2 } longname gen.1)

/-- Modelled from the spec: a TagDefinition carries a canonical name and
synonyms (spec section 3, TagDefinition); the tag-definition module itself is
not under src/. -/
structure TagDef where
  title : String
  synonyms : List String := []
deriving Repr, DecidableEq

/-- Modelled from the spec: a TagDictionary is a mapping from tag names to tag
definitions plus the `allowUnknownTags` flag (spec section 3); the dictionary
module is a collaborator of templateHelper.js and is not under src/. -/
structure TagDictionary where
  allowUnknownTags : Bool := true
  defs : List TagDef := []
deriving Repr, DecidableEq

/-- Modelled from the spec: `lookup(tagName)` resolves synonyms to canonical
definitions (spec section 4.1). -/
def dictLookup (dict : TagDictionary) (tagName : String) : Option TagDef :=
  dict.defs.find? (fun td => td.title == tagName || td.synonyms.contains tagName)

/-- The module-level `dictionary` reference of templateHelper.js, the single
indirection point behind which the active dictionary is held. -/
structure HelperDictState where
  dictionary : TagDictionary
deriving Repr, DecidableEq

/-- Embeds `exports._replaceDictionary` (templateHelper.js lines 1309-1311):
overwrite the module-level `dictionary` reference. -/
def replaceDictionaryHelper (st : HelperDictState) (dict : TagDictionary) : HelperDictState :=
  { dictionary := dict }

/-- Modelled from the spec: `replace(newDictionary) → previousDictionary`
atomically swaps the active dictionary and returns a handle sufficient to
restore it exactly (spec section 4.1); the caller that saves the previous
dictionary (`jsdoc/doclet._replaceDictionary` and the jasmine
`replaceTagDictionary` helper used by src/test/specs/tags/polymerbehaviortag.js)
is not under src/. -/
def replaceDictionary (st : HelperDictState) (dict : TagDictionary) :
    TagDictionary × HelperDictState :=
  (st.dictionary, replaceDictionaryHelper st dict)

/-- Restoring a saved dictionary handle is another swap through the same
indirection point. -/
def restoreDictionary (st : HelperDictState) (prev : TagDictionary) : HelperDictState :=
  replaceDictionaryHelper st prev

/-- Modelled from the spec: the tag parser's unknown-tag policy (spec sections
4.1 and 4.2) — a recognized tag is kept; an unknown tag is kept when
`allowUnknownTags` is true and otherwise reported as a non-fatal error and
skipped, with parsing of the remaining tags continuing.  The parser module is
not under src/; src/test/specs/tags/polymerbehaviortag.js is its test.  Returns
(recognized tags, error diagnostics). -/
def parseTagNames (dict : TagDictionary) (tagNames : List String) :
    List String × List String :=
  tagNames.foldl
    (fun acc t =>
      match dictLookup dict t with
      | some _ => (acc.1 ++ [t], acc.2)
      | none =>
        if dict.allowUnknownTags then (acc.1 ++ [t], acc.2)
        else (acc.1, acc.2 ++ ["unknown tag: " ++ t]))
    ([], [])

/-- Modelled from the spec: the built-in `jsdoc` grammar does not define the
`polymerBehavior` tag (src/test/specs/tags/polymerbehaviortag.js, JSDoc tags
block); `allowUnknownTags` is false as set by the test's beforeEach. -/
def jsdocDictionary : TagDictionary :=
  { allowUnknownTags := false,
    defs := [{ title := "param", synonyms := ["arg", "argument"] },
             { title := "returns", synonyms := ["return"] },
             { title := "class", synonyms := ["constructor"] }] }

/-- Modelled from the spec: the built-in `closure` grammar recognizes the
`polymerBehavior` tag (src/test/specs/tags/polymerbehaviortag.js, Closure
Compiler tags block). -/
def closureDictionary : TagDictionary :=
  { allowUnknownTags := false,
    defs := [{ title := "param" },
             { title := "return" },
             { title := "polymerBehavior" }] }

/-- Modelled from the spec: the handler of a repeatable tag appends to the
array field and never overwrites it (spec sections 4.2 and 8, repeatable-tag
accumulation); the author-tag handler is not under src/ and
src/unnamed/part_000 is its test. -/
def applyAuthorTag (d : Doclet) (value : String) : Doclet :=
  { d with author := d.author ++ [value] }

/-- Apply the occurrences of a repeatable tag in source order. -/
def applyAuthorTags (d : Doclet) (values : List String) : Doclet :=
  values.foldl applyAuthorTag d

/-- Embeds the `LEVELS` enumeration of logger.js (lines 54-109). -/
def loggerLevels : List (String × Nat) :=
  [("SILENT", 0), ("FATAL", 10), ("ERROR", 20), ("WARN", 30), ("INFO", 40),
   ("DEBUG", 50), ("VERBOSE", 1000)]

/-- Embeds the `PREFIXES` table of logger.js (lines 114-120). -/
def loggerPrefixes : List (String × String) :=
  [("DEBUG", "DEBUG - "), ("ERROR", "ERROR - "), ("INFO", "INFO - "),
   ("FATAL", "FATAL - "), ("WARN", "WARNING - ")]

/-- Per-character uppercasing, the model of `name.toUpperCase()` in
`wrapLogFunction` (logger.js line 185). -/
def upperStr (s : String) : String := String.mk (s.data.map Char.toUpper)

/-- Lookup in the `LEVELS` object: `LEVELS[name]`, `none` for undefined. -/
def lookupNat (m : List (String × Nat)) (k : String) : Option Nat :=
  (m.find? (fun kv => kv.1 == k)).map (fun kv => kv.2)

/-- Embeds `addPrefix` (logger.js lines 165-180): when a prefix applies and the
first argument is a string, prepend the prefix (and the source-location details
when `logDetails` produced them, an environment-dependent value passed in as a
parameter here) to the first argument.  Arguments are modelled as the list of
string arguments of the call. -/
def prefixArgs (args : List String) (pfx : Option String) (details : Option String) :
    List String :=
  match pfx, args with
  | some p, a0 :: rest =>
    (match details with
      | some dts => p ++ dts ++ a0
      | none => p ++ a0) :: rest
  | _, _ => args

/-- Embeds the closure returned by `wrapLogFunction` (logger.js lines 183-202)
for one call: the console function receives the prefixed arguments only when
`logLevel >= level` (a comparison that is false when the level name is unknown,
since `LEVELS[name]` is then undefined), and the `logger:<name>` event is
always emitted with the original arguments.  Returns (arguments passed to the
console function, if any; the emitted event with its arguments). -/
def wrapLogCall (logLevel : Nat) (methodName : String) (args : List String)
    (details : Option String) : Option (List String) × (String × List String) :=
  let eventName := "logger:" ++ methodName
  let levelOpt := lookupNat loggerLevels (upperStr methodName)
  let pfx := lookupAssoc loggerPrefixes (upperStr methodName)
  let consoleCall :=
    match levelOpt with
    | some level => if level ≤ logLevel then some (prefixArgs args pfx details) else none
    | none => none
  (consoleCall, (eventName, args))

/-- Embeds `logger.setLevel` (logger.js lines 293-295): an undefined level
falls back to the default level WARN (= 30). -/
def setLevel (level : Option Nat) : Nat := level.getD 30

/-- The longname projection of a doclet that `pushListener` can never change:
`longname`, `kind` and `listens`. -/
def docSig (d : Doclet) : String × String × List String := (d.longname, d.kind, d.listens)

/-- One push onto a `listeners` field, written uniformly: an absent array
becomes a one-element array, an existing array is appended to. -/
def pushedListeners (o : Option (List String)) (listenerLongname : String) :
    Option (List String) :=
  some (o.getD [] ++ [listenerLongname])

/-- Appending a whole batch of listener longnames onto a `listeners` field: the
field is untouched when the batch is empty and otherwise created on first
use. -/
def appendContrib (o : Option (List String)) (contrib : List String) :
    Option (List String) :=
  if contrib.isEmpty then o else some (o.getD [] ++ contrib)

/-- How many times `listenerLongname` occurs in the `listeners` array of the
first event doclet with longname `eventLongname` (zero when there is no such
doclet or no such array). -/
def listenersCount (data : List Doclet) (eventLongname listenerLongname : String) : Nat :=
  (((findEventIn data eventLongname).bind (fun d => d.listeners)).getD []).count
    listenerLongname

/-- Concrete event doclet for the listener back-reference fixtures. -/
def eventDocletC1 : Doclet := { longname := "event:ui/ready", name := "ready", kind := "event" }

/-- Concrete listener doclet that listens to `eventDocletC1`. -/
def listenerDocletC1 : Doclet :=
  { longname := "module:ui.handler", name := "handler", kind := "function",
    listens := ["event:ui/ready"] }

/-- Concrete collection with one event and one listener. -/
def collectionC1 : List Doclet := [eventDocletC1, listenerDocletC1]

/-- Concrete collection in which two doclets share the listener longname (a
legal multimap situation) and both listen to the same event. -/
def collectionC1dup : List Doclet :=
  [{ longname := "event:dup", name := "dup", kind := "event" },
   { longname := "module:dup.handler", name := "handler", kind := "function",
     listens := ["event:dup"] },
   { longname := "module:dup.handler", name := "handler", kind := "function",
     listens := ["event:dup"] }]

/-- Concrete doclet whose `memberof` chain revisits itself, as produced by
duplicated module definitions. -/
def cyclicDoclet : Doclet :=
  { longname := "module:duplicated", name := "module:duplicated", kind := "module",
    memberof := some "module:duplicated" }

/-- Concrete collection containing only the cyclic doclet. -/
def cyclicCollection : List Doclet := [cyclicDoclet]

/-- Concrete collection whose single listener references an event that no
doclet defines. -/
def collectionC3 : List Doclet :=
  [{ longname := "module:x.f", name := "f", kind := "function",
     listens := ["event:missing"] }]

/-- Concrete doclet that is a module's sole export. -/
def moduleExportDoclet : Doclet :=
  { longname := "module:color/mixer", name := "module:color/mixer", kind := "member" }

/-- Concrete collection with a module export and an ordinary global. -/
def collectionC4 : List Doclet :=
  [moduleExportDoclet, { longname := "g", name := "g", kind := "function" }]

/-- Concrete collection for the pruning fixture. -/
def collectionC8 : List Doclet :=
  [{ longname := "ok" },
   { longname := "bad", undocumented := true },
   { longname := "anon", memberof := some "<anonymous>" },
   { longname := "hidden", ignore := true }]

/-- The namespace list that `dictionary.getNamespaces()` yields for the default
grammar (tags declared with `isNamespace`): event, external, module. -/
def namespacesFixture : List String := ["event", "external", "module"]

/-- Every doclet surviving the access-option block already appeared in its
input collection. -/
theorem pruneAccess_subset (opts : PruneOpts) (l : List Doclet) :
    pruneAccess opts l ⊆ l := by
  intro x hx
  simp only [pruneAccess] at hx
  repeat' split at hx
  all_goals simp_all [List.mem_filter]

/-- C8: after `prune` runs, no doclet whose `memberof` is the synthetic name
`<anonymous>` remains in the collection, and likewise no undocumented and no
ignored doclet remains. -/
theorem prune_removes_hidden (opts : PruneOpts) (data : List Doclet) (d : Doclet)
    (h : d ∈ prune opts data) :
    d.undocumented = false ∧ d.ignore = false ∧ d.memberof ≠ some "<anonymous>" := by
  have h3 := pruneAccess_subset opts _ h
  have e3 := List.mem_filter.1 h3
  have e2 := List.mem_filter.1 e3.1
  have e1 := List.mem_filter.1 e2.1
  refine ⟨by simpa using e1.2, by simpa using e2.2, ?_⟩
  simpa using e3.2

/-- Witness for C8 at a concrete collection: the surviving doclet of
`collectionC8` is neither undocumented nor ignored nor anonymous-membered. -/
theorem prune_removes_hidden_witness :
    ({ longname := "ok" } : Doclet).undocumented = false ∧
    ({ longname := "ok" } : Doclet).ignore = false ∧
    ({ longname := "ok" } : Doclet).memberof ≠ some "<anonymous>" :=
  prune_removes_hidden {} collectionC8 { longname := "ok" } (by decide)

/-- C2: the ancestor walk of `getAncestors` does not terminate on a cyclic
`memberof` chain: on the one-doclet collection whose doclet is its own
`memberof`, the loop is still running after every finite number of steps (in
particular after one step, the number of distinct doclets), because the source
has no repeated-node check. -/
theorem getAncestors_cycle_diverges :
    ∀ (fuel : Nat) (ancestors : List Doclet),
      getAncestorsFuel cyclicCollection fuel cyclicDoclet ancestors = none := by
  intro fuel
  induction fuel with
  | zero => intro ancestors; rfl
  | succ n ih => intro ancestors; exact ih (cyclicDoclet :: ancestors)

/-- C5: a dictionary swap through the templateHelper indirection point followed
by restoring the returned previous-dictionary handle leaves every lookup result
unchanged. -/
theorem dictionary_swap_reversible (st : HelperDictState) (newDict : TagDictionary)
    (tagName : String) :
    dictLookup (restoreDictionary (replaceDictionary st newDict).2
        (replaceDictionary st newDict).1).dictionary tagName
      = dictLookup st.dictionary tagName := rfl

/-- C6: with unknown tags disallowed, the literal input carrying the
`polymerBehavior` tag yields an unknown-tag diagnostic under the jsdoc
dictionary and none under the closure dictionary. -/
theorem polymerBehavior_dictionary_dependent :
    (parseTagNames jsdocDictionary ["polymerBehavior"]).2 ≠ [] ∧
    (parseTagNames closureDictionary ["polymerBehavior"]).2 = [] := by decide

/-- C7: applying the occurrences of the repeatable author tag appends every
value in order — one occurrence yields a one-element sequence, N occurrences
yield all N values, and later occurrences never overwrite earlier ones. -/
theorem author_tag_accumulates (d : Doclet) (values : List String) :
    (applyAuthorTags d values).author = d.author ++ values ∧
    ∀ v, v ∈ values → v ∈ (applyAuthorTags d values).author := by
  have hmain : ∀ (values : List String) (d : Doclet),
      (applyAuthorTags d values).author = d.author ++ values := by
    intro vs
    induction vs with
    | nil => intro d; simp [applyAuthorTags]
    | cons v t ih =>
      intro d
      show (applyAuthorTags (applyAuthorTag d v) t).author = d.author ++ v :: t
      rw [ih]
      simp [applyAuthorTag]
  refine ⟨hmain values d, ?_⟩
  intro v hv
  rw [hmain values d]
  exact List.mem_append.2 (Or.inr hv)

/-- Witness for C7 at the authortag fixture: two author tags accumulate into a
two-element sequence containing both values. -/
theorem author_tag_accumulates_witness :
    (applyAuthorTags { longname := "Thingy2" } ["Jane Doe", "John Doe"]).author
        = ["Jane Doe", "John Doe"] ∧
    "John Doe" ∈ (applyAuthorTags { longname := "Thingy2" } ["Jane Doe", "John Doe"]).author :=
  ⟨(author_tag_accumulates { longname := "Thingy2" } ["Jane Doe", "John Doe"]).1,
   (author_tag_accumulates { longname := "Thingy2" } ["Jane Doe", "John Doe"]).2
     "John Doe" (by decide)⟩

/-- C10: a wrapped logger call always yields the `logger:<name>` event carrying
the call's arguments, for every log level produced by `setLevel` (including
SILENT), while the console function is invoked exactly when the current log
level is at least the method's level. -/
theorem logger_event_unconditional_console_gated (levelOpt : Option Nat)
    (methodName : String) (args : List String) (details : Option String) :
    (wrapLogCall (setLevel levelOpt) methodName args details).2
        = ("logger:" ++ methodName, args) ∧
    ((wrapLogCall (setLevel levelOpt) methodName args details).1.isSome ↔
      ∃ l, lookupNat loggerLevels (upperStr methodName) = some l ∧
        l ≤ setLevel levelOpt) := by
  constructor
  · rfl
  · simp only [wrapLogCall]
    cases hl : lookupNat loggerLevels (upperStr methodName) with
    | none => simp
    | some l =>
      by_cases hle : l ≤ setLevel levelOpt
      · simp [hle]
      · simp [hle]

/-- C4: a doclet that is a module's sole export (longname equal to its name,
longname in the `module:` namespace, kind other than `module`) is excluded from
the globals returned by `getMembers`, and every doclet in the returned globals
is an unmodified member of the input collection (so it keeps its own kind). -/
theorem getMembers_excludes_module_export (data : List Doclet) (d : Doclet)
    (h1 : d.longname = d.name)
    (h2 : "module:".data.isPrefixOf d.longname.data = true)
    (h3 : d.kind ≠ "module") :
    d ∉ (getMembers data).globals ∧ ∀ g ∈ (getMembers data).globals, g ∈ data := by
  constructor
  · intro hmem
    simp only [getMembers] at hmem
    have hfl := (List.mem_filter.1 hmem).2
    have hne : d.longname ≠ "" := by
      intro he
      rw [he] at h2
      rw [List.isPrefixOf_iff_prefix] at h2
      have := h2.length_le
      simp at this
    have htrue : isModuleExports d = true := by
      simp [isModuleExports, h2, hne, h3]
      rw [h1]
    rw [htrue] at hfl
    simp at hfl
  · intro g hg
    simp only [getMembers] at hg
    exact List.mem_of_mem_filter (List.mem_of_mem_filter hg)

/-- Witness for C4: the concrete module-export doclet is excluded from the
globals of its collection. -/
theorem getMembers_excludes_module_export_witness :
    moduleExportDoclet ∉ (getMembers collectionC4).globals ∧
    ∀ g ∈ (getMembers collectionC4).globals, g ∈ collectionC4 :=
  getMembers_excludes_module_export collectionC4 moduleExportDoclet (by decide)
    (by decide) (by decide)

/-- Pushing a listener never changes any doclet's longname, kind or listens
array. -/
theorem pushListener_docSig (e ln : String) :
    ∀ data : List Doclet, (pushListener e ln data).map docSig = data.map docSig := by
  intro data
  induction data with
  | nil => rfl
  | cons d rest ih =>
    by_cases hp : (d.longname == e && d.kind == "event") = true
    · simp only [pushListener, hp, if_true, List.map_cons]
      cases d.listeners <;> simp [docSig, ih]
    · simp only [pushListener, hp, if_false, Bool.false_eq_true, List.map_cons, ih]

/-- Effect of one push on the first matching event doclet for any queried
longname: the push rewrites the listeners of the first event doclet with the
pushed longname and leaves every other lookup unchanged. -/
theorem findEventIn_pushListener (e ln e2 : String) :
    ∀ data : List Doclet,
      findEventIn (pushListener e ln data) e2 =
        if e2 = e then
          (findEventIn data e).map
            (fun d => { d with listeners := pushedListeners d.listeners ln })
        else findEventIn data e2 := by
  intro data
  induction data with
  | nil => by_cases he : e2 = e <;> simp [pushListener, findEventIn, he]
  | cons d rest ih =>
    by_cases hp : (d.longname == e && d.kind == "event") = true
    · obtain ⟨hlong, hkind⟩ : d.longname = e ∧ d.kind = "event" := by
        simpa using hp
      by_cases he : e2 = e
      · subst he
        cases hls : d.listeners <;>
          simp [pushListener, findEventIn, hp, hls, pushedListeners, List.find?_cons,
            hlong, hkind]
      · have hne : ¬ (d.longname == e2 && d.kind == "event") = true := by
          simp [hlong]
          intro hc
          exact absurd hc.symm he
        cases hls : d.listeners <;>
          simp [pushListener, findEventIn, hp, hls, he, hne, List.find?_cons]
    · have hd2 : pushListener e ln (d :: rest) = d :: pushListener e ln rest := by
        simp [pushListener, hp]
      by_cases he : e2 = e
      · subst he
        have ih' := ih
        rw [if_pos rfl] at ih'
        simp [findEventIn, hd2, List.find?_cons, hp] at ih' ⊢
        exact ih'
      · by_cases hp2 : (d.longname == e2 && d.kind == "event") = true
        · simp [findEventIn, hd2, List.find?_cons, hp2, he]
        · have ih' := ih
          rw [if_neg he] at ih'
          simp [findEventIn, hd2, List.find?_cons, hp2, he] at ih' ⊢
          exact ih'

/-- Appending one listener longname and then a batch is appending the combined
batch. -/
theorem appendContrib_pushed (o : Option (List String)) (ln : String) (c : List String) :
    appendContrib (pushedListeners o ln) c = appendContrib o (ln :: c) := by
  cases c <;> simp [appendContrib, pushedListeners]

/-- Effect of a whole batch of references on the first matching event doclet:
the listener longnames of exactly the references naming this event are appended
to its listeners, in order, the array being created on first use. -/
theorem findEventIn_applyListenPairs (e : String) :
    ∀ (ps : List (String × String)) (data : List Doclet),
      findEventIn (applyListenPairs data ps) e =
        (findEventIn data e).map
          (fun d => { d with
            listeners := appendContrib d.listeners
                ((ps.filter (fun q => q.1 == e)).map (fun q => q.2)) }) := by
  intro ps
  induction ps with
  | nil =>
    intro data
    cases hfd : findEventIn data e <;> simp [applyListenPairs, appendContrib, hfd]
  | cons p rest ih =>
    obtain ⟨pe, pl⟩ := p
    intro data
    rw [show applyListenPairs data ((pe, pl) :: rest)
        = applyListenPairs (pushListener pe pl data) rest from rfl, ih]
    rw [findEventIn_pushListener pe pl e data]
    by_cases he : e = pe
    · subst he
      rw [if_pos rfl]
      cases hfd : findEventIn data e with
      | none => simp
      | some d => simp [appendContrib_pushed, List.filter_cons]
    · rw [if_neg he]
      have hbe : (pe == e) = false := by
        simp [beq_iff_eq]
        exact fun hc => he hc.symm
      simp [List.filter_cons, hbe]

/-- A reference batch never changes any doclet's longname, kind or listens
array. -/
theorem applyListenPairs_docSig :
    ∀ (ps : List (String × String)) (data : List Doclet),
      (applyListenPairs data ps).map docSig = data.map docSig := by
  intro ps
  induction ps with
  | nil => intro data; rfl
  | cons p rest ih =>
    intro data
    show (applyListenPairs (pushListener p.1 p.2 data) rest).map docSig = data.map docSig
    rw [ih (pushListener p.1 p.2 data), pushListener_docSig]

/-- Unfolding of `listenPairs` over a cons cell. -/
theorem listenPairs_cons (d : Doclet) (t : List Doclet) :
    listenPairs (d :: t) =
      (if !d.listens.isEmpty then d.listens.map (fun evName => (evName, d.longname)) else [])
        ++ listenPairs t := by
  simp only [listenPairs, List.filter_cons]
  by_cases hne : (!d.listens.isEmpty) = true
  · simp [hne]
  · simp [hne]

/-- The reference pairs depend only on the longname, kind and listens of each
doclet, so two collections with the same signature produce the same pairs. -/
theorem listenPairs_congr :
    ∀ {l1 l2 : List Doclet}, l1.map docSig = l2.map docSig → listenPairs l1 = listenPairs l2 := by
  intro l1
  induction l1 with
  | nil =>
    intro l2 h
    cases l2 with
    | nil => rfl
    | cons d t => simp at h
  | cons d t ih =>
    intro l2 h
    cases l2 with
    | nil => simp at h
    | cons d2 t2 =>
      simp only [List.map_cons, List.cons.injEq] at h
      obtain ⟨hd, ht⟩ := h
      simp only [docSig, Prod.mk.injEq] at hd
      rw [listenPairs_cons, listenPairs_cons, hd.1, hd.2.2, ih ht]

/-- The nested forEach loops of `addEventListeners` equal the flat fold over
the reference pairs. -/
theorem addEventListeners_eq_applyListenPairs (data : List Doclet) :
    addEventListeners data = applyListenPairs data (listenPairs data) := by
  have happ : ∀ (a b : List (String × String)) (acc : List Doclet),
      applyListenPairs acc (a ++ b) = applyListenPairs (applyListenPairs acc a) b := by
    intro a b acc
    simp [applyListenPairs, List.foldl_append]
  have hinner : ∀ (evs : List String) (lnm : String) (acc : List Doclet),
      evs.foldl (fun a evName => pushListener evName lnm a) acc
        = applyListenPairs acc (evs.map (fun evName => (evName, lnm))) := by
    intro evs
    induction evs with
    | nil => intro lnm acc; rfl
    | cons v t ih => intro lnm acc; exact ih lnm (pushListener v lnm acc)
  have houter : ∀ (ls : List Doclet) (acc : List Doclet),
      ls.foldl (fun acc listener =>
          listener.listens.foldl
            (fun acc2 evName => pushListener evName listener.longname acc2) acc) acc
        = applyListenPairs acc
            (ls.flatMap (fun listener =>
              listener.listens.map (fun evName => (evName, listener.longname)))) := by
    intro ls
    induction ls with
    | nil => intro acc; rfl
    | cons l t ih =>
      intro acc
      rw [List.foldl_cons, hinner, show ((l :: t).flatMap (fun listener =>
          listener.listens.map (fun evName => (evName, listener.longname))))
          = l.listens.map (fun evName => (evName, l.longname))
            ++ t.flatMap (fun listener =>
              listener.listens.map (fun evName => (evName, listener.longname))) from rfl,
        happ]
      exact ih _
  exact houter (data.filter (fun d => !d.listens.isEmpty)) data

/-- Counterexample for C1: on the concrete collection with event
`event:ui/ready` and listener `module:ui.handler`, a single resolver run
records the listener exactly once, but a second run on the already-resolved
collection appends a duplicate (count 2, not 1); likewise, a single run over a
collection in which two doclets share the listener longname records that
longname twice. -/
theorem addEventListeners_not_idempotent_cex :
    (listenersCount (addEventListeners collectionC1) "event:ui/ready" "module:ui.handler" = 1 ∧
      listenersCount (addEventListeners (addEventListeners collectionC1))
        "event:ui/ready" "module:ui.handler" = 2) ∧
    listenersCount (addEventListeners collectionC1dup) "event:dup" "module:dup.handler" = 2 := by
  decide

/-- C1 (amended): when `E` is the first event doclet carrying its longname,
its listeners array is initially absent, and exactly one reference in the
collection pairs `L.longname` with `E.longname`, one resolver run makes
`E.listeners` contain `L.longname` exactly once — and a second run on the
already-resolved collection appends a second copy, so the count becomes two. -/
theorem addEventListeners_backref (data : List Doclet) (E L : Doclet)
    (hfind : findEventIn data E.longname = some E)
    (hinit : E.listeners = none)
    (hcontrib : ((listenPairs data).filter (fun q => q.1 == E.longname)).map (fun q => q.2)
        = [L.longname]) :
    listenersCount (addEventListeners data) E.longname L.longname = 1 ∧
    listenersCount (addEventListeners (addEventListeners data)) E.longname L.longname = 2 := by
  have h1 : findEventIn (addEventListeners data) E.longname
      = some { E with listeners := some [L.longname] } := by
    rw [addEventListeners_eq_applyListenPairs,
      findEventIn_applyListenPairs E.longname (listenPairs data) data, hfind]
    simp [hcontrib, appendContrib, hinit]
  have hsig : (addEventListeners data).map docSig = data.map docSig := by
    rw [addEventListeners_eq_applyListenPairs]
    exact applyListenPairs_docSig _ _
  have hpairs := listenPairs_congr hsig
  have h2 : findEventIn (addEventListeners (addEventListeners data)) E.longname
      = some { E with listeners := some [L.longname, L.longname] } := by
    rw [addEventListeners_eq_applyListenPairs (addEventListeners data),
      findEventIn_applyListenPairs E.longname (listenPairs (addEventListeners data))
        (addEventListeners data), h1]
    simp [hpairs, hcontrib, appendContrib]
  constructor
  · simp [listenersCount, h1, List.count_cons]
  · simp [listenersCount, h2, List.count_cons]

/-- Witness for C1 at the concrete collection: the hypotheses hold for
`eventDocletC1` and `listenerDocletC1`, one run records the listener once, a
second run twice. -/
theorem addEventListeners_backref_witness :
    listenersCount (addEventListeners collectionC1) eventDocletC1.longname
        listenerDocletC1.longname = 1 ∧
    listenersCount (addEventListeners (addEventListeners collectionC1))
        eventDocletC1.longname listenerDocletC1.longname = 2 :=
  addEventListeners_backref collectionC1 eventDocletC1 listenerDocletC1
    (by decide) (by decide) (by decide)

/-- C3: a listens reference whose longname matches no event doclet is skipped
without error: the push for that reference leaves the collection unchanged, and
the full pass over any reference sequence containing it processes the remaining
references exactly as if the dangling reference were absent. -/
theorem addEventListeners_skips_missing (data : List Doclet) (evName lnm : String)
    (h : findEventIn data evName = none) (ps1 ps2 : List (String × String)) :
    pushListener evName lnm data = data ∧
    applyListenPairs data (ps1 ++ (evName, lnm) :: ps2) = applyListenPairs data (ps1 ++ ps2) := by
  have hpush : ∀ (d2 : List Doclet), findEventIn d2 evName = none →
      ∀ lnm2, pushListener evName lnm2 d2 = d2 := by
    intro d2
    induction d2 with
    | nil => intro _ _; rfl
    | cons d rest ih =>
      intro hn lnm2
      simp only [findEventIn] at hn
      rw [List.find?_eq_none] at hn
      have hhead : ¬ (d.longname == evName && d.kind == "event") = true := hn d (by simp)
      have htail : findEventIn rest evName = none := by
        simp only [findEventIn]
        rw [List.find?_eq_none]
        intro x hx
        exact hn x (by simp [hx])
      simp [pushListener, hhead]
      exact ih htail lnm2
  constructor
  · exact hpush data h lnm
  · have hmid : findEventIn (applyListenPairs data ps1) evName = none := by
      rw [findEventIn_applyListenPairs, h]
      rfl
    have hsplit : applyListenPairs data (ps1 ++ (evName, lnm) :: ps2)
        = applyListenPairs (applyListenPairs data ps1) ((evName, lnm) :: ps2) := by
      simp [applyListenPairs, List.foldl_append]
    rw [hsplit,
      show applyListenPairs (applyListenPairs data ps1) ((evName, lnm) :: ps2)
        = applyListenPairs (pushListener evName lnm (applyListenPairs data ps1)) ps2 from rfl,
      hpush _ hmid lnm]
    simp [applyListenPairs, List.foldl_append]

/-- Witness for C3 at the concrete collection whose single listener references
the undefined event `event:missing`. -/
theorem addEventListeners_skips_missing_witness :
    pushListener "event:missing" "module:x.f" collectionC3 = collectionC3 ∧
    applyListenPairs collectionC3 ([] ++ ("event:missing", "module:x.f") :: [])
      = applyListenPairs collectionC3 ([] ++ []) :=
  addEventListeners_skips_missing collectionC3 "event:missing" "module:x.f"
    (by decide) [] []

/-- Appending a fresh binding to a map leaves a failed lookup failed unless the
appended key is the one queried. -/
theorem lookupAssoc_append_right (m : List (String × String)) (k v k2 : String)
    (h : lookupAssoc m k2 = none) :
    lookupAssoc (m ++ [(k, v)]) k2 = if k2 = k then some v else none := by
  induction m with
  | nil =>
    by_cases hk : k2 = k
    · simp [lookupAssoc, List.find?, hk]
    · have hbe : (k == k2) = false := by
        simp [beq_iff_eq]
        exact fun hc => hk hc.symm
      simp [lookupAssoc, List.find?, hk, hbe]
  | cons a t ih =>
    by_cases ha : (a.1 == k2) = true
    · exfalso
      simp [lookupAssoc, List.find?, ha] at h
    · have hbe : (a.1 == k2) = false := by
        simpa using ha
      have htail : lookupAssoc t k2 = none := by
        simpa [lookupAssoc, List.find?, hbe] using h
      simpa [lookupAssoc, List.find?, hbe] using ih htail

/-- Strict decrease of the prefix-measure used by the underscore-appending
loop: when the lowercased candidate is an occupied key, extending it with one
underscore strictly shrinks the set of occupied keys it is a prefix of. -/
theorem extendFilename_measure_lt (files : List (String × String)) (filename : String)
    (h : hasFileKey files (lowerStr filename) = true) :
    (files.filter (fun kv => (lowerStr (filename ++ "_")).data.isPrefixOf kv.1.data)).length <
    (files.filter (fun kv => (lowerStr filename).data.isPrefixOf kv.1.data)).length := by
  have hdata : (lowerStr (filename ++ "_")).data = (lowerStr filename).data ++ ['_'] := by
    show ((filename ++ "_").data).map Char.toLower = (filename.data.map Char.toLower) ++ ['_']
    have hjoin : (filename ++ "_").data = filename.data ++ ['_'] := rfl
    rw [hjoin, List.map_append]
    congr 1
  obtain ⟨kv, hkvmem, hkveq⟩ : ∃ kv, kv ∈ files ∧ kv.1 = lowerStr filename := by
    simpa [hasFileKey, List.any_eq_true] using h
  have hmono : ∀ kv : String × String,
      (lowerStr (filename ++ "_")).data.isPrefixOf kv.1.data →
      (lowerStr filename).data.isPrefixOf kv.1.data := by
    intro kv hkv
    rw [List.isPrefixOf_iff_prefix] at hkv ⊢
    rw [hdata] at hkv
    exact (List.prefix_append _ _).trans hkv
  have hsub := List.monotone_filter_right files hmono
  have hqkv : ((lowerStr filename).data.isPrefixOf kv.1.data) = true := by
    rw [List.isPrefixOf_iff_prefix, hkveq]
  have hpkv : ¬ ((lowerStr (filename ++ "_")).data.isPrefixOf kv.1.data = true) := by
    rw [List.isPrefixOf_iff_prefix, hdata, hkveq]
    intro hc
    have hlen := hc.length_le
    simp at hlen
  have hmem : kv ∈ files.filter (fun kv => (lowerStr filename).data.isPrefixOf kv.1.data) :=
    List.mem_filter.2 ⟨hkvmem, hqkv⟩
  refine Nat.lt_of_le_of_ne hsub.length_le (fun heq => hpkv ?_)
  have heqlist := hsub.eq_of_length heq
  have hmem2 : kv ∈ files.filter
      (fun kv => (lowerStr (filename ++ "_")).data.isPrefixOf kv.1.data) := by
    rw [heqlist]; exact hmem
  exact (List.mem_filter.1 hmem2).2

/-- One-step unfolding of the underscore-appending loop. -/
theorem extendFilename_eq (files : List (String × String)) (filename : String) :
    extendFilename files filename =
      if hasFileKey files (lowerStr filename) then extendFilename files (filename ++ "_")
      else filename := by
  rw [extendFilename]
  simp

/-- The filename returned by the underscore-appending loop never collides with
an occupied key of the `files` cache. -/
theorem extendFilename_fresh (files : List (String × String)) :
    ∀ (n : Nat) (filename : String),
      (files.filter (fun kv => (lowerStr filename).data.isPrefixOf kv.1.data)).length ≤ n →
      hasFileKey files (lowerStr (extendFilename files filename)) = false := by
  intro n
  induction n with
  | zero =>
    intro filename hle
    rw [extendFilename_eq]
    by_cases h : hasFileKey files (lowerStr filename) = true
    · exfalso
      obtain ⟨kv, hkvmem, hkveq⟩ : ∃ kv, kv ∈ files ∧ kv.1 = lowerStr filename := by
        simpa [hasFileKey, List.any_eq_true] using h
      have hmem : kv ∈ files.filter
          (fun kv => (lowerStr filename).data.isPrefixOf kv.1.data) :=
        List.mem_filter.2 ⟨hkvmem, by rw [List.isPrefixOf_iff_prefix, hkveq]⟩
      have hpos := List.length_pos_of_mem hmem
      omega
    · simp only [h, if_false, Bool.false_eq_true]
  | succ n ih =>
    intro filename hle
    rw [extendFilename_eq]
    by_cases h : hasFileKey files (lowerStr filename) = true
    · simp only [h, if_true]
      apply ih
      have hlt := extendFilename_measure_lt files filename h
      omega
    · simp only [h, if_false, Bool.false_eq_true]

/-- The returned filename's lowercased key is unused in the cache. -/
theorem extendFilename_not_key (files : List (String × String)) (filename : String) :
    hasFileKey files (lowerStr (extendFilename files filename)) = false :=
  extendFilename_fresh files _ filename (Nat.le_refl _)

/-- Characterization of `getFilename` when the longname is already
registered. -/
theorem getFilename_some (ns : List String) (s : LinkState) (ln u : String)
    (h : lookupAssoc s.longnameToUrl ln = some u) :
    getFilename ns s ln = (u, s) := by
  simp only [getFilename, h]

/-- Characterization of `getFilename` when the longname is not yet registered:
the generated filename is recorded in the `files` cache and registered in the
link map. -/
theorem getFilename_none (ns : List String) (s : LinkState) (ln : String)
    (h : lookupAssoc s.longnameToUrl ln = none) :
    getFilename ns s ln
      = (extendFilename s.files (mufAdjusted (docletBasename ns ln)) ++ ".html",
         registerLink
           { s with files :=
               (lowerStr (extendFilename s.files (mufAdjusted (docletBasename ns ln))), ln)
                 :: s.files }
           ln (extendFilename s.files (mufAdjusted (docletBasename ns ln)) ++ ".html")) := by
  simp only [getFilename, h, getUniqueFilename, makeUniqueFilename]

/-- C9: the longname-to-URL registry is one-to-one — calling `getFilename`
twice with the same longname returns the same URL both times (the second call
hits the registered link), and registering two distinct longnames yields
distinct filenames, even when the longnames differ only in capitalization,
because the second generated filename's lowercased key is guaranteed fresh
against the cache entry recorded by the first. -/
theorem getFilename_unique_registry (ns : List String) (s : LinkState) (ln ln1 ln2 : String)
    (hne : ln1 ≠ ln2)
    (h1 : lookupAssoc s.longnameToUrl ln1 = none)
    (h2 : lookupAssoc s.longnameToUrl ln2 = none) :
    (getFilename ns (getFilename ns s ln).2 ln).1 = (getFilename ns s ln).1 ∧
    (getFilename ns (getFilename ns s ln1).2 ln2).1 ≠ (getFilename ns s ln1).1 := by
  constructor
  · cases hl : lookupAssoc s.longnameToUrl ln with
    | some u =>
      rw [show getFilename ns s ln = (u, s) from getFilename_some ns s ln u hl]
      exact congrArg Prod.fst (getFilename_some ns s ln u hl)
    | none =>
      have hcall := getFilename_none ns s ln hl
      have hlook : lookupAssoc ((getFilename ns s ln).2).longnameToUrl ln
          = some (getFilename ns s ln).1 := by
        rw [hcall]
        simp only [registerLink]
        rw [lookupAssoc_append_right _ _ _ _ hl]
        simp
      exact congrArg Prod.fst
        (getFilename_some ns ((getFilename ns s ln).2) ln ((getFilename ns s ln).1) hlook)
  · have hcall1 := getFilename_none ns s ln1 h1
    have hu1 : (getFilename ns s ln1).1
        = extendFilename s.files (mufAdjusted (docletBasename ns ln1)) ++ ".html" := by
      rw [hcall1]
    have hs1files : ((getFilename ns s ln1).2).files
        = (lowerStr (extendFilename s.files (mufAdjusted (docletBasename ns ln1))), ln1)
            :: s.files := by
      rw [hcall1]
      simp [registerLink]
    have hs1map : ((getFilename ns s ln1).2).longnameToUrl
        = s.longnameToUrl
            ++ [(ln1, extendFilename s.files (mufAdjusted (docletBasename ns ln1)) ++ ".html")] := by
      rw [hcall1]
      simp [registerLink]
    have h2' : lookupAssoc ((getFilename ns s ln1).2).longnameToUrl ln2 = none := by
      rw [hs1map, lookupAssoc_append_right _ _ _ _ h2, if_neg (fun hc => hne hc.symm)]
    have hcall2 := getFilename_none ns ((getFilename ns s ln1).2) ln2 h2'
    have hu2 : (getFilename ns (getFilename ns s ln1).2 ln2).1
        = extendFilename ((getFilename ns s ln1).2).files
            (mufAdjusted (docletBasename ns ln2)) ++ ".html" := by
      rw [hcall2]
    rw [hu2, hu1]
    intro heq
    have hdataeq : (extendFilename ((getFilename ns s ln1).2).files
          (mufAdjusted (docletBasename ns ln2))).data ++ ".html".data
        = (extendFilename s.files (mufAdjusted (docletBasename ns ln1))).data
          ++ ".html".data := congrArg String.data heq
    have hfeq : extendFilename ((getFilename ns s ln1).2).files
          (mufAdjusted (docletBasename ns ln2))
        = extendFilename s.files (mufAdjusted (docletBasename ns ln1)) :=
      String.ext (List.append_cancel_right hdataeq)
    have hfresh := extendFilename_not_key ((getFilename ns s ln1).2).files
        (mufAdjusted (docletBasename ns ln2))
    rw [hfeq, hs1files] at hfresh
    simp [hasFileKey] at hfresh

/-- Witness for C9 from the empty registry, with the two registered longnames
differing only in capitalization. -/
theorem getFilename_unique_registry_witness :
    (getFilename namespacesFixture
        (getFilename namespacesFixture {} "module:color/mixer").2 "module:color/mixer").1
      = (getFilename namespacesFixture ({} : LinkState) "module:color/mixer").1 ∧
    (getFilename namespacesFixture (getFilename namespacesFixture {} "Foo").2 "foo").1
      ≠ (getFilename namespacesFixture ({} : LinkState) "Foo").1 :=
  getFilename_unique_registry namespacesFixture {} "module:color/mixer" "Foo" "foo"
    (by decide) rfl rfl
